import Mathlib

/-!
Verification of the LCH::ThreadPool component (src/include/thread_pool.hpp).

The pool is modelled as a transition system.  Each pass of a worker thread
through a taskMutex-protected critical section of ThreadPool::WaitForTask is
one atomic step, as is the execution of a dequeued task outside the lock.
The caller-side member functions (AddTask, WaitUntilFinished, StopASAP,
Restart) are modelled as state transformers; WaitUntilFinished, which blocks
joining the workers, is split into its entry (setting the finished flag) and
its completion (join + ClearFutureTasks), with arbitrary worker steps
interleaved between the two.  std::packaged_task / std::future semantics are
embedded as a one-shot result channel per task: invoking the packaged task
writes the callable's value or its captured exception into the channel;
destroying an unexecuted packaged task breaks the channel so that get raises
std::future_error.
-/

namespace LCH

/-- Outcome of invoking the callable wrapped in a std::packaged_task: it
either returns a value or raises an exception.  Values and exceptions are
abstracted as natural numbers. -/
inductive Outcome where
  | val (v : Nat)
  | exc (e : Nat)
  deriving DecidableEq

/-- One Work task: the type-erased Task object kept in the queue
(std::unique_ptr of AbstractTask).  The field id identifies the associated
result channel (the std::future returned by AddTask); behavior is what the
wrapped packaged_task will write into that channel when invoked. -/
structure Task where
  id : Nat
  behavior : Outcome
  deriving DecidableEq

/-- Shared state of the result channel behind the std::future obtained from
packaged_task::get_future: pending (unwritten, get blocks), written (holds
the value or the captured exception), or broken (the packaged_task was
destroyed without being executed, so get raises std::future_error). -/
inductive ChanState where
  | pending
  | written (o : Outcome)
  | broken
  deriving DecidableEq

/-- Position of one worker thread inside ThreadPool::WaitForTask:
at the top of the while loop, blocked in notifier.wait, executing a dequeued
task outside the lock, or returned from WaitForTask (joinable). -/
inductive WorkerPhase where
  | atLoopTop
  | waiting
  | executing (t : Task)
  | exited
  deriving DecidableEq

/-- The fields of class ThreadPool: the task queue, the atomic flags finished
and noMoreTasks, the atomic waiting counter, the threads vector (abstracted
to each thread's phase), plus the result channels of all futures handed out. -/
structure PoolState where
  tasks : List Task
  finished : Bool
  noMoreTasks : Bool
  waiting : Nat
  workers : List WorkerPhase
  channels : Nat → ChanState

/-- The constructor ThreadPool(threadCount): finished = false,
noMoreTasks = false, waiting = 0, threadCount threads started at the top of
WaitForTask, empty queue, no future written yet. -/
def mkThreadPool (threadCount : Nat) : PoolState :=
  { tasks := []
    finished := false
    noMoreTasks := false
    waiting := 0
    workers := List.replicate threadCount .atLoopTop
    channels := fun _ => .pending }

/-- ThreadPool::ThreadShouldWake: a sleeping thread wakes if there is a task
or if it should be cleaned up. -/
def ThreadShouldWake (st : PoolState) : Bool :=
  !st.tasks.isEmpty || st.finished || st.noMoreTasks

/-- One critical section of WaitForTask entered at the top of the loop
(the worker holds taskMutex): if the queue is empty, break when finished,
otherwise increment waiting and block in notifier.wait (releasing the lock);
if the queue is non-empty, break when noMoreTasks, otherwise pop the front
task and leave the lock to execute it. -/
def WaitForTaskTop (st : PoolState) (i : Nat) : PoolState :=
  match st.tasks with
  | [] =>
      if st.finished then { st with workers := st.workers.set i .exited }
      else { st with workers := st.workers.set i .waiting
                     waiting := st.waiting + 1 }
  | t :: rest =>
      if st.noMoreTasks then { st with workers := st.workers.set i .exited }
      else { st with tasks := rest
                     workers := st.workers.set i (.executing t) }

/-- The continuation of WaitForTask when notifier.wait returns (only possible
once ThreadShouldWake holds): decrement waiting, then break if noMoreTasks or
the queue is empty, otherwise pop the front task and go execute it. -/
def WaitForTaskWake (st : PoolState) (i : Nat) : PoolState :=
  match st.tasks with
  | [] => { st with workers := st.workers.set i .exited
                    waiting := st.waiting - 1 }
  | t :: rest =>
      if st.noMoreTasks then
        { st with workers := st.workers.set i .exited
                  waiting := st.waiting - 1 }
      else
        { st with tasks := rest
                  workers := st.workers.set i (.executing t)
                  waiting := st.waiting - 1 }

/-- Execution of the dequeued task outside the lock: invoking the
packaged_task runs the callable and writes its return value, or the exception
it raised, into the task's result channel (std::packaged_task catches the
exception and stores it in the shared state); the worker then loops. -/
def WaitForTaskExec (st : PoolState) (i : Nat) (t : Task) : PoolState :=
  { st with workers := st.workers.set i .atLoopTop
            channels := Function.update st.channels t.id (.written t.behavior) }

/-- One atomic step of some worker thread i inside WaitForTask. -/
inductive WStep : PoolState → PoolState → Prop where
  | top {st : PoolState} (i : Nat) (h : st.workers[i]? = some .atLoopTop) :
      WStep st (WaitForTaskTop st i)
  | wake {st : PoolState} (i : Nat) (h : st.workers[i]? = some .waiting)
      (hw : ThreadShouldWake st = true) :
      WStep st (WaitForTaskWake st i)
  | exec {st : PoolState} (i : Nat) (t : Task)
      (h : st.workers[i]? = some (.executing t)) :
      WStep st (WaitForTaskExec st i t)

/-- The two ways AddTask can fail: std::logic_error from AddTaskDirectly on a
finished pool, and an allocation failure while constructing the packaged
task. -/
inductive PoolError where
  | logicError
  | badAlloc
  deriving DecidableEq

/-- ThreadPool::AddTask: construct the packaged task (which may fail by
allocation, captured by the allocOk parameter, before anything is enqueued),
then AddTaskDirectly: throw std::logic_error if the pool is finished,
otherwise push the task under taskMutex and notify one waiting worker.
The result pairs the pool state after the call with the error raised, if
any; on failure the pool is untouched. -/
def AddTask (st : PoolState) (t : Task) (allocOk : Bool) :
    PoolState × Option PoolError :=
  if !allocOk then (st, some .badAlloc)
  else if st.finished then (st, some .logicError)
  else ({ st with tasks := st.tasks ++ [t] }, none)

/-- ThreadPool::ClearFutureTasks: destroy every queued task object.  Each
queued task owns its packaged_task, whose destruction abandons the unwritten
shared state, so the associated futures will raise std::future_error. -/
def ClearFutureTasks (st : PoolState) : PoolState :=
  { st with tasks := []
            channels := fun id =>
              if id ∈ st.tasks.map Task.id then .broken
              else st.channels id }

/-- ThreadPool::StopASAP: return immediately if already stopped or if the
threads vector is empty; otherwise set finished and noMoreTasks, notify all
workers, and clear the queued tasks. -/
def StopASAP (st : PoolState) : PoolState :=
  if st.noMoreTasks || st.workers.isEmpty then st
  else ClearFutureTasks { st with finished := true, noMoreTasks := true }

/-- Entry of ThreadPool::WaitUntilFinished: return immediately if the threads
vector is empty; otherwise set finished and notify all workers, then start
joining them. -/
def WaitUntilFinishedEnter (st : PoolState) : PoolState :=
  if st.workers.isEmpty then st else { st with finished := true }

/-- All workers have returned from WaitForTask, so every join succeeds. -/
def allWorkersExited (st : PoolState) : Bool :=
  st.workers.all (fun w => w = .exited)

/-- Completion of ThreadPool::WaitUntilFinished once every worker has
returned: join all threads, clear the threads vector, then
ClearFutureTasks. -/
def WaitUntilFinishedJoin (st : PoolState) : PoolState :=
  ClearFutureTasks { st with workers := [] }

/-- ThreadPool::Restart: throw std::logic_error if the threads vector is
non-empty; otherwise clear noMoreTasks and finished and start threadCount
fresh workers. -/
def Restart (st : PoolState) (threadCount : Nat) :
    PoolState × Option PoolError :=
  if st.workers.isEmpty then
    ({ st with noMoreTasks := false
               finished := false
               workers := List.replicate threadCount .atLoopTop }, none)
  else (st, some .logicError)

/-- ThreadPool::ThreadCount: threads.size(). -/
def ThreadCount (st : PoolState) : Nat := st.workers.length

/-- ThreadPool::IdleThreadCount: the waiting counter. -/
def IdleThreadCount (st : PoolState) : Nat := st.waiting

/-- ThreadPool::RunningThreadCount: ThreadCount() - IdleThreadCount(). -/
def RunningThreadCount (st : PoolState) : Nat :=
  ThreadCount st - IdleThreadCount st

/-- Result of std::future::get on a task's result channel: block while the
channel is pending, return the value or re-raise the captured exception once
written, raise std::future_error if the channel was abandoned. -/
inductive ReadResult where
  | blocks
  | value (v : Nat)
  | raises (e : Nat)
  | brokenPromise
  deriving DecidableEq

/-- Reading the std::future associated with channel id. -/
def readFuture (st : PoolState) (id : Nat) : ReadResult :=
  match st.channels id with
  | .pending => .blocks
  | .written (.val v) => .value v
  | .written (.exc e) => .raises e
  | .broken => .brokenPromise

/-- The outcome reading a task's future should deliver once the task ran. -/
def resultOf (t : Task) : ReadResult :=
  match t.behavior with
  | .val v => .value v
  | .exc e => .raises e

/-- Every step any thread of the process can take on the pool: a worker step,
or one of the caller-side member functions. -/
inductive Step : PoolState → PoolState → Prop where
  | worker {st st' : PoolState} (h : WStep st st') : Step st st'
  | add {st : PoolState} (t : Task) (allocOk : Bool) :
      Step st (AddTask st t allocOk).1
  | wufEnter {st : PoolState} : Step st (WaitUntilFinishedEnter st)
  | wufJoin {st : PoolState} (h : st.workers ≠ [])
      (hx : allWorkersExited st = true) : Step st (WaitUntilFinishedJoin st)
  | stop {st : PoolState} : Step st (StopASAP st)
  | restartStep {st : PoolState} (n : Nat) :
      Step st (Restart st n).1

/-- States reachable from a freshly constructed pool. -/
def Reachable (n : Nat) (st : PoolState) : Prop :=
  Relation.ReflTransGen Step (mkThreadPool n) st

/-- A pool state with all result channels pending, used to instantiate
theorems at concrete inputs. -/
def samplePool (q : List Task) (fin nmt : Bool) (w : Nat)
    (ws : List WorkerPhase) : PoolState :=
  { tasks := q
    finished := fin
    noMoreTasks := nmt
    waiting := w
    workers := ws
    channels := fun _ => .pending }

/-- The mutable core of the pool that determines its future behavior: queue,
lifecycle flags, idle counter, and worker phases (the result channels only
record the history of already-handed-out futures). -/
def poolCore (st : PoolState) :
    List Task × Bool × Bool × Nat × List WorkerPhase :=
  (st.tasks, st.finished, st.noMoreTasks, st.waiting, st.workers)

/-- The number of workers currently blocked in notifier.wait; the waiting
counter is meant to track exactly this quantity. -/
def countWaiting (st : PoolState) : Nat :=
  st.workers.count .waiting

/-- The task a worker currently owns, if it is executing one. -/
def execTask : WorkerPhase → Option Task
  | .executing t => some t
  | _ => none

/-- All tasks that have been submitted but not yet run to completion: the
queued tasks plus the tasks currently owned by a worker. -/
def inFlight (st : PoolState) : List Task :=
  st.tasks ++ st.workers.filterMap execTask

/-- Well-formedness of the futures bookkeeping: distinct in-flight tasks use
distinct result channels, and an in-flight task's channel is still
unwritten.  This holds for every pool whose futures come from AddTask, which
hands out a fresh channel per task. -/
def WF (st : PoolState) : Prop :=
  ((inFlight st).map Task.id).Nodup ∧
  ∀ t ∈ inFlight st, st.channels t.id = .pending

/-- A task is tracked when it is still in flight or its result channel holds
its outcome. -/
def Tracked (t : Task) (st : PoolState) : Prop :=
  t ∈ inFlight st ∨ st.channels t.id = .written t.behavior

theorem set_decomp {α : Type _} {l : List α} {i : Nat} {c : α}
    (h : l[i]? = some c) (b : α) :
    ∃ l1 l2, l = l1 ++ c :: l2 ∧ l.set i b = l1 ++ b :: l2 := by
  induction l generalizing i with
  | nil => simp at h
  | cons x xs ih =>
    cases i with
    | zero =>
      simp at h
      exact ⟨[], xs, by simp [h], by simp⟩
    | succ n =>
      simp at h
      obtain ⟨l1, l2, he, hs⟩ := ih h
      exact ⟨x :: l1, l2, by simp [he], by simp [hs]⟩

theorem wstep_needs_worker {st st' : PoolState} (h : WStep st st') :
    st.workers ≠ [] := by
  cases h with
  | top i hi => intro hnil; rw [hnil] at hi; simp at hi
  | wake i hi hw => intro hnil; rw [hnil] at hi; simp at hi
  | exec i t hi => intro hnil; rw [hnil] at hi; simp at hi

theorem isEmpty_false_of_ne_nil {α : Type _} {l : List α} (h : l ≠ []) :
    l.isEmpty = false := by
  cases l with
  | nil => exact absurd rfl h
  | cons a l => rfl

/-- Claim C2: AddTask raises std::logic_error exactly when the pool has been
marked finished (given the packaged task is allocated successfully; an
allocation failure preempts the finished check and raises the allocation
error instead), and any failing AddTask leaves the pool unchanged, while a
successful one appends exactly the new task to the back of the queue. -/
theorem AddTask_error_contract (st : PoolState) (t : Task) (allocOk : Bool) :
    ((AddTask st t true).2 = some .logicError ↔ st.finished = true) ∧
    ((AddTask st t allocOk).2 ≠ none → (AddTask st t allocOk).1 = st) ∧
    ((AddTask st t allocOk).2 = none →
      (AddTask st t allocOk).1.tasks = st.tasks ++ [t]) := by
  unfold AddTask
  refine ⟨?_, ?_, ?_⟩
  · cases hf : st.finished <;> simp [hf]
  · cases allocOk <;> cases hf : st.finished <;> simp [hf]
  · cases allocOk <;> cases hf : st.finished <;> simp [hf]

theorem AddTask_error_contract_witness :
    (AddTask (samplePool [] true false 0 []) ⟨0, .val 0⟩ true).2
      = some .logicError ∧
    (AddTask (samplePool [] true false 0 []) ⟨0, .val 0⟩ true).1
      = samplePool [] true false 0 [] ∧
    (AddTask (samplePool [] false false 0 []) ⟨0, .val 0⟩ true).1.tasks
      = [] ++ [⟨0, .val 0⟩] := by
  have h1 := AddTask_error_contract (samplePool [] true false 0 []) ⟨0, .val 0⟩ true
  have h2 := AddTask_error_contract (samplePool [] false false 0 []) ⟨0, .val 0⟩ true
  exact ⟨h1.1.mpr rfl, h1.2.1 (by decide), h2.2.2 (by decide)⟩

/-- Claim C3 counterexample: on a pool whose threads vector is empty (for
example constructed with threadCount 0) holding one queued, never-started
task, StopASAP hits its early return and discards nothing, so reading the
queued task's future still blocks instead of raising the broken-promise
error the claim promises for every such task. -/
theorem StopASAP_zero_thread_counterexample :
    StopASAP (samplePool [⟨7, .val 3⟩] false false 0 [])
      = samplePool [⟨7, .val 3⟩] false false 0 [] ∧
    (samplePool [⟨7, .val 3⟩] false false 0 []).tasks ≠ [] ∧
    readFuture (StopASAP (samplePool [⟨7, .val 3⟩] false false 0 [])) 7
      = .blocks := by
  exact ⟨rfl, by decide, rfl⟩

/-- Claim C3 amended: provided the threads vector is non-empty and the pool
was not already stopped, every task still queued when StopASAP is called is
discarded: the queue is emptied and reading the task's future raises
std::future_error (broken promise) rather than blocking or yielding a
value. -/
theorem StopASAP_discards_queued (st : PoolState) (t : Task)
    (ht : t ∈ st.tasks) (hw : st.workers ≠ []) (hn : st.noMoreTasks = false) :
    (StopASAP st).tasks = [] ∧
    readFuture (StopASAP st) t.id = .brokenPromise := by
  have hne : st.workers.isEmpty = false := isEmpty_false_of_ne_nil hw
  unfold StopASAP
  rw [hn, hne]
  have hex : ∃ a ∈ st.tasks, a.id = t.id := ⟨t, ht, rfl⟩
  refine ⟨rfl, ?_⟩
  simp [readFuture, ClearFutureTasks, hex]

theorem StopASAP_discards_queued_witness :
    (StopASAP (samplePool [⟨7, .val 3⟩] false false 1 [.waiting])).tasks
      = [] ∧
    readFuture (StopASAP (samplePool [⟨7, .val 3⟩] false false 1 [.waiting])) 7
      = .brokenPromise :=
  StopASAP_discards_queued (samplePool [⟨7, .val 3⟩] false false 1 [.waiting])
    ⟨7, .val 3⟩ (by decide) (by decide) rfl

/-- Claim C5 counterexample: StopASAP returns while the worker thread is
still present and mid-execution: the threads vector is untouched (nobody is
joined); only the queue-clearing half of the claim holds. -/
theorem StopASAP_no_join_counterexample :
    (StopASAP (samplePool [⟨5, .val 1⟩] false false 0
        [.executing ⟨4, .val 9⟩])).workers = [.executing ⟨4, .val 9⟩] ∧
    (StopASAP (samplePool [⟨5, .val 1⟩] false false 0
        [.executing ⟨4, .val 9⟩])).workers ≠ [] ∧
    (StopASAP (samplePool [⟨5, .val 1⟩] false false 0
        [.executing ⟨4, .val 9⟩])).tasks = [] := by
  exact ⟨rfl, by decide, rfl⟩

/-- Claim C5 amended: when StopASAP returns on a pool whose threads vector is
non-empty and which was not already stopped, the task queue has been cleared
and both finished and noMoreTasks are set, but the worker threads are not
joined: the threads vector and every worker's phase are exactly as before
the call; the workers exit asynchronously and are joined only by a later
WaitUntilFinished or by the destructor. -/
theorem StopASAP_clears_queue_without_join (st : PoolState)
    (hw : st.workers ≠ []) (hn : st.noMoreTasks = false) :
    (StopASAP st).tasks = [] ∧
    (StopASAP st).finished = true ∧
    (StopASAP st).noMoreTasks = true ∧
    (StopASAP st).workers = st.workers := by
  have hne : st.workers.isEmpty = false := isEmpty_false_of_ne_nil hw
  unfold StopASAP
  rw [hn, hne]
  exact ⟨rfl, rfl, rfl, rfl⟩

theorem StopASAP_clears_queue_without_join_witness :
    (StopASAP (samplePool [⟨5, .val 1⟩] false false 0
        [.executing ⟨4, .val 9⟩])).finished = true ∧
    (StopASAP (samplePool [⟨5, .val 1⟩] false false 0
        [.executing ⟨4, .val 9⟩])).workers
      = [.executing ⟨4, .val 9⟩] :=
  ⟨(StopASAP_clears_queue_without_join
      (samplePool [⟨5, .val 1⟩] false false 0 [.executing ⟨4, .val 9⟩])
      (by decide) rfl).2.1,
   (StopASAP_clears_queue_without_join
      (samplePool [⟨5, .val 1⟩] false false 0 [.executing ⟨4, .val 9⟩])
      (by decide) rfl).2.2.2⟩

/-- Claim C6 counterexample: worker 0 wakes with a non-empty queue, but
because noMoreTasks became true between the wake and the dequeue check it
exits without dequeuing: the front task stays in the queue and is never
executed, contrary to the claimed behavior when terminateNow became true. -/
theorem wake_with_noMoreTasks_counterexample :
    (samplePool [⟨2, .val 11⟩] true true 1 [.waiting]).workers[0]?
      = some .waiting ∧
    ThreadShouldWake (samplePool [⟨2, .val 11⟩] true true 1 [.waiting])
      = true ∧
    (samplePool [⟨2, .val 11⟩] true true 1 [.waiting]).tasks ≠ [] ∧
    (WaitForTaskWake (samplePool [⟨2, .val 11⟩] true true 1 [.waiting])
        0).workers[0]? = some .exited ∧
    (WaitForTaskWake (samplePool [⟨2, .val 11⟩] true true 1 [.waiting])
        0).tasks = [⟨2, .val 11⟩] := by
  refine ⟨rfl, rfl, by decide, rfl, rfl⟩

/-- Claim C6 amended: a worker that wakes with a non-empty task queue
dequeues the front task and executes it (writing the task's outcome into its
result channel) provided noMoreTasks is not set, and this holds even if
finished became true between the wake and the dequeue check; when
noMoreTasks (the immediate-shutdown flag) became true the worker instead
exits without dequeuing. -/
theorem wake_dequeues_front_unless_noMoreTasks (st : PoolState) (i : Nat)
    (t : Task) (rest : List Task)
    (hq : st.tasks = t :: rest) (hn : st.noMoreTasks = false) :
    (WaitForTaskWake st i).workers = st.workers.set i (.executing t) ∧
    (WaitForTaskWake st i).tasks = rest ∧
    (WaitForTaskExec (WaitForTaskWake st i) i t).channels t.id
      = .written t.behavior := by
  unfold WaitForTaskWake
  rw [hq, hn]
  simp [WaitForTaskExec]

theorem wake_dequeues_front_unless_noMoreTasks_witness :
    (WaitForTaskWake (samplePool [⟨2, .val 11⟩] true false 1 [.waiting])
        0).workers = [.executing ⟨2, .val 11⟩] ∧
    (WaitForTaskWake (samplePool [⟨2, .val 11⟩] true false 1 [.waiting])
        0).tasks = [] := by
  have h := wake_dequeues_front_unless_noMoreTasks
    (samplePool [⟨2, .val 11⟩] true false 1 [.waiting]) 0 ⟨2, .val 11⟩ []
    rfl rfl
  exact ⟨h.1, h.2.1⟩

/-- Claim C7 counterexample: graceful shutdown enqueues nothing.  On a pool
with two live workers and an empty queue, entering WaitUntilFinished sets
finished but leaves the task queue empty: no Sentinel task is enqueued to
wake the workers (the code has a single Work task variant and wakes workers
with notify_all instead). -/
theorem no_sentinel_counterexample :
    (samplePool [] false false 2 [.waiting, .waiting]).workers.length = 2 ∧
    (WaitUntilFinishedEnter
      (samplePool [] false false 2 [.waiting, .waiting])).tasks = [] ∧
    (WaitUntilFinishedEnter
      (samplePool [] false false 2 [.waiting, .waiting])).finished = true := by
  exact ⟨rfl, rfl, rfl⟩

/-- Claim C7 amended: the queue holds a single kind of task (a Work task
wrapping a callable and its result channel); graceful shutdown wakes the
workers by setting finished and calling notify_all without enqueuing any
task, and a worker that wakes to an empty queue with finished set exits
without side effects: the queue and every result channel are untouched. -/
theorem graceful_shutdown_wakes_without_enqueue (st : PoolState) (i : Nat)
    (hw : st.workers ≠ []) (hq : st.tasks = [])
    (hfw : st.workers[i]? = some .waiting) :
    (WaitUntilFinishedEnter st).tasks = st.tasks ∧
    (WaitUntilFinishedEnter st).finished = true ∧
    ThreadShouldWake (WaitUntilFinishedEnter st) = true ∧
    (WaitForTaskWake (WaitUntilFinishedEnter st) i).workers[i]?
      = some .exited ∧
    (WaitForTaskWake (WaitUntilFinishedEnter st) i).tasks = st.tasks ∧
    (WaitForTaskWake (WaitUntilFinishedEnter st) i).channels
      = st.channels := by
  have hne : st.workers.isEmpty = false := isEmpty_false_of_ne_nil hw
  have hlt : i < st.workers.length := (List.getElem?_eq_some_iff.1 hfw).1
  unfold WaitUntilFinishedEnter ThreadShouldWake WaitForTaskWake
  rw [hne]
  simp [hq, List.getElem?_set_eq_of_lt _ hlt]

theorem graceful_shutdown_wakes_without_enqueue_witness :
    (WaitUntilFinishedEnter (samplePool [] false false 1 [.waiting])).finished
      = true ∧
    (WaitForTaskWake
      (WaitUntilFinishedEnter (samplePool [] false false 1 [.waiting]))
      0).workers[0]? = some .exited := by
  have h := graceful_shutdown_wakes_without_enqueue
    (samplePool [] false false 1 [.waiting]) 0 (by decide) rfl rfl
  exact ⟨h.2.1, h.2.2.2.1⟩

/-- Claim C8: Restart raises std::logic_error exactly when the threads vector
is non-empty (leaving the pool unchanged); otherwise it clears finished and
noMoreTasks and starts exactly threadCount fresh workers, and on a fully
drained pool (no threads, empty queue, idle counter zero) the restarted pool
has the same core state as a freshly constructed pool of that size and
accepts new tasks. -/
theorem Restart_contract (st : PoolState) (n : Nat) (t : Task) :
    ((Restart st n).2 = some .logicError ↔ st.workers ≠ []) ∧
    ((Restart st n).2 ≠ none → (Restart st n).1 = st) ∧
    (st.workers = [] →
      (Restart st n).1.finished = false ∧
      (Restart st n).1.noMoreTasks = false ∧
      (Restart st n).1.workers = List.replicate n .atLoopTop) ∧
    (st.workers = [] → st.tasks = [] → st.waiting = 0 →
      poolCore (Restart st n).1 = poolCore (mkThreadPool n) ∧
      (AddTask (Restart st n).1 t true).2 = none) := by
  unfold Restart
  cases hww : st.workers with
  | nil =>
    refine ⟨by simp, by simp, fun _ => ⟨rfl, rfl, rfl⟩, fun _ hq hwait => ?_⟩
    refine ⟨?_, rfl⟩
    simp [poolCore, mkThreadPool, hq, hwait]
  | cons a l =>
    refine ⟨by simp, fun _ => rfl, fun hc => ?_, fun hc => ?_⟩
    · exact absurd hc (by simp)
    · exact absurd hc (by simp)

theorem Restart_contract_witness :
    (Restart (samplePool [] true false 0 []) 2).2 = none ∧
    poolCore (Restart (samplePool [] true false 0 []) 2).1
      = poolCore (mkThreadPool 2) := by
  have h := Restart_contract (samplePool [] true false 0 []) 2 ⟨0, .val 0⟩
  refine ⟨by decide, (h.2.2.2 rfl rfl rfl).1⟩

/-- Claim C10 counterexample: on a pool already drained by a previous
graceful shutdown the threads vector is empty and WaitUntilFinished indeed
returns immediately leaving the state untouched, but finished is already
set, so the subsequent AddTask raises std::logic_error instead of enqueuing
the task as the claim asserts. -/
theorem empty_pool_addTask_counterexample :
    WaitUntilFinishedEnter (samplePool [] true false 0 [])
      = samplePool [] true false 0 [] ∧
    (AddTask (samplePool [] true false 0 []) ⟨0, .val 0⟩ true).2
      = some .logicError := by
  exact ⟨rfl, rfl⟩

/-- Claim C10 amended: if the threads vector is empty and the pool is not
marked finished (as for a pool constructed with threadCount = 0),
WaitUntilFinished returns immediately without setting the finished flag and
without clearing the queue; a subsequent AddTask does not raise and appends
its task to the queue, and since the pool has no workers, no worker step can
ever run it: the state admits no worker transitions at all. -/
theorem zero_thread_pool_behavior (st : PoolState) (t : Task)
    (hw : st.workers = []) (hf : st.finished = false) :
    WaitUntilFinishedEnter st = st ∧
    (AddTask st t true).2 = none ∧
    (AddTask st t true).1.tasks = st.tasks ++ [t] ∧
    ∀ st', Relation.ReflTransGen WStep (AddTask st t true).1 st' →
      st' = (AddTask st t true).1 := by
  have h1 : WaitUntilFinishedEnter st = st := by
    unfold WaitUntilFinishedEnter
    rw [hw]
    simp
  have h3 : (AddTask st t true).1 = { st with tasks := st.tasks ++ [t] } := by
    unfold AddTask
    rw [hf]
    simp
  have h2 : (AddTask st t true).2 = none := by
    unfold AddTask
    rw [hf]
    simp
  refine ⟨h1, h2, by rw [h3], ?_⟩
  intro st' hsteps
  induction hsteps with
  | refl => rfl
  | tail hab hbc ih =>
    exfalso
    apply wstep_needs_worker hbc
    rw [ih, h3]
    exact hw

theorem zero_thread_pool_behavior_witness :
    WaitUntilFinishedEnter (samplePool [] false false 0 [])
      = samplePool [] false false 0 [] ∧
    (AddTask (samplePool [] false false 0 []) ⟨1, .val 2⟩ true).1.tasks
      = [] ++ [⟨1, .val 2⟩] := by
  have h := zero_thread_pool_behavior (samplePool [] false false 0 [])
    ⟨1, .val 2⟩ rfl rfl
  exact ⟨h.1, h.2.2.1⟩

/-- Claim C4: a callable that raises has its exception captured into its own
task's result channel by the worker that executes it: after the execution
step the worker is back at the top of its loop (neither crashed nor exited),
reading that task's future re-raises the exception, every other result
channel is untouched, and every other worker is untouched. -/
theorem exception_captured_per_task (st : PoolState) (i : Nat) (t : Task)
    (e : Nat) (h : st.workers[i]? = some (.executing t))
    (hb : t.behavior = .exc e) :
    WStep st (WaitForTaskExec st i t) ∧
    readFuture (WaitForTaskExec st i t) t.id = .raises e ∧
    (WaitForTaskExec st i t).workers[i]? = some .atLoopTop ∧
    (∀ id, id ≠ t.id →
      (WaitForTaskExec st i t).channels id = st.channels id) ∧
    (∀ j, j ≠ i →
      (WaitForTaskExec st i t).workers[j]? = st.workers[j]?) := by
  have hlt : i < st.workers.length := (List.getElem?_eq_some_iff.1 h).1
  refine ⟨WStep.exec i t h, ?_, ?_, ?_, ?_⟩
  · simp [readFuture, WaitForTaskExec, hb]
  · simp [WaitForTaskExec, List.getElem?_set_eq_of_lt _ hlt]
  · intro id hid
    simp [WaitForTaskExec, Function.update_noteq hid]
  · intro j hj
    simp [WaitForTaskExec, List.getElem?_set_ne (Ne.symm hj)]

theorem exception_captured_per_task_witness :
    readFuture
      (WaitForTaskExec
        (samplePool [] false false 0 [.executing ⟨3, .exc 42⟩, .atLoopTop])
        0 ⟨3, .exc 42⟩) 3 = .raises 42 ∧
    (WaitForTaskExec
      (samplePool [] false false 0 [.executing ⟨3, .exc 42⟩, .atLoopTop])
      0 ⟨3, .exc 42⟩).workers[0]? = some .atLoopTop ∧
    (WaitForTaskExec
      (samplePool [] false false 0 [.executing ⟨3, .exc 42⟩, .atLoopTop])
      0 ⟨3, .exc 42⟩).channels 9
      = (samplePool [] false false 0
          [.executing ⟨3, .exc 42⟩, .atLoopTop]).channels 9 := by
  have h := exception_captured_per_task
    (samplePool [] false false 0 [.executing ⟨3, .exc 42⟩, .atLoopTop])
    0 ⟨3, .exc 42⟩ 42 rfl rfl
  exact ⟨h.2.1, h.2.2.1, h.2.2.2.1 9 (by decide)⟩

theorem count_set_from_to {l : List WorkerPhase} {i : Nat} {c : WorkerPhase}
    (h : l[i]? = some c) (b : WorkerPhase) :
    (l.set i b).count .waiting + (if c = .waiting then 1 else 0)
      = l.count .waiting + (if b = .waiting then 1 else 0) := by
  obtain ⟨l1, l2, he, hs⟩ := set_decomp h b
  rw [hs, he]
  simp only [List.count_append, List.count_cons, beq_iff_eq]
  split_ifs <;> omega

theorem mem_of_getElem?_eq_some {α : Type _} {l : List α} {i : Nat} {a : α}
    (h : l[i]? = some a) : a ∈ l := by
  obtain ⟨hlt, hget⟩ := List.getElem?_eq_some_iff.1 h
  exact hget ▸ List.getElem_mem hlt

theorem wstep_preserves_waiting {st st' : PoolState} (h : WStep st st')
    (hinv : st.waiting = countWaiting st) : st'.waiting = countWaiting st' := by
  unfold countWaiting at hinv ⊢
  cases h with
  | top i hi =>
    have hc := count_set_from_to hi
    unfold WaitForTaskTop
    cases hq : st.tasks with
    | nil =>
      cases hf : st.finished
      · have h2 := hc .waiting
        simp only [if_true, if_false] at h2
        simp at h2 ⊢
        omega
      · have h2 := hc .exited
        simp at h2 ⊢
        omega
    | cons t rest =>
      cases hn : st.noMoreTasks
      · have h2 := hc (.executing t)
        simp at h2 ⊢
        omega
      · have h2 := hc .exited
        simp at h2 ⊢
        omega
  | wake i hi hw =>
    have hc := count_set_from_to hi
    have hmem : WorkerPhase.waiting ∈ st.workers := mem_of_getElem?_eq_some hi
    have hpos : st.workers.count .waiting ≠ 0 :=
      fun hz => (List.count_eq_zero.1 hz) hmem
    unfold WaitForTaskWake
    cases hq : st.tasks with
    | nil =>
      have h2 := hc .exited
      simp at h2 ⊢
      omega
    | cons t rest =>
      cases hn : st.noMoreTasks
      · have h2 := hc (.executing t)
        simp at h2 ⊢
        omega
      · have h2 := hc .exited
        simp at h2 ⊢
        omega
  | exec i t hi =>
    have h2 := count_set_from_to hi .atLoopTop
    unfold WaitForTaskExec
    simp at h2 ⊢
    omega

theorem step_preserves_waiting {st st' : PoolState} (h : Step st st')
    (hinv : st.waiting = countWaiting st) : st'.waiting = countWaiting st' := by
  cases h with
  | worker hw => exact wstep_preserves_waiting hw hinv
  | add t allocOk =>
    have hsame : (AddTask st t allocOk).1.workers = st.workers ∧
        (AddTask st t allocOk).1.waiting = st.waiting := by
      unfold AddTask
      cases allocOk <;> cases hf : st.finished <;> simp [hf]
    unfold countWaiting at hinv ⊢
    rw [hsame.1, hsame.2]
    exact hinv
  | wufEnter =>
    have hsame : (WaitUntilFinishedEnter st).workers = st.workers ∧
        (WaitUntilFinishedEnter st).waiting = st.waiting := by
      unfold WaitUntilFinishedEnter
      cases hww : st.workers.isEmpty <;> simp
    unfold countWaiting at hinv ⊢
    rw [hsame.1, hsame.2]
    exact hinv
  | wufJoin hne hx =>
    have hzero : st.workers.count .waiting = 0 := by
      refine List.count_eq_zero.2 fun hmem => ?_
      have := List.all_eq_true.1 hx _ hmem
      simp at this
    unfold countWaiting at hinv ⊢
    unfold WaitUntilFinishedJoin ClearFutureTasks
    simp
    omega
  | stop =>
    have hsame : (StopASAP st).workers = st.workers ∧
        (StopASAP st).waiting = st.waiting := by
      unfold StopASAP ClearFutureTasks
      cases hc : (st.noMoreTasks || st.workers.isEmpty) <;> simp
    unfold countWaiting at hinv ⊢
    rw [hsame.1, hsame.2]
    exact hinv
  | restartStep m =>
    unfold countWaiting at hinv ⊢
    unfold Restart
    cases hww : st.workers.isEmpty
    · simp
      exact hinv
    · have hnil : st.workers = [] := List.isEmpty_iff.1 hww
      rw [hnil] at hinv
      simp at hinv
      simp [List.count_replicate, hinv]

/-- Claim C9: in every reachable pool state the waiting counter equals the
number of workers blocked in notifier.wait (each worker increments it
exactly once before blocking and decrements it exactly once upon waking), so
it never exceeds the thread count, IdleThreadCount never exceeds
ThreadCount, and RunningThreadCount = ThreadCount - IdleThreadCount never
underflows: it is the exact complement of the idle count. -/
theorem idle_counter_invariant (n : Nat) (st : PoolState)
    (h : Reachable n st) :
    st.waiting = countWaiting st ∧
    IdleThreadCount st ≤ ThreadCount st ∧
    RunningThreadCount st + IdleThreadCount st = ThreadCount st := by
  have hinv : st.waiting = countWaiting st := by
    unfold Reachable at h
    induction h with
    | refl => simp [mkThreadPool, countWaiting, List.count_replicate]
    | tail hab hbc ih => exact step_preserves_waiting hbc ih
  have hle : countWaiting st ≤ st.workers.length := List.count_le_length _ _
  unfold RunningThreadCount IdleThreadCount ThreadCount
  omega

theorem idle_counter_invariant_witness :
    (WaitForTaskTop (mkThreadPool 2) 0).waiting
      = countWaiting (WaitForTaskTop (mkThreadPool 2) 0) ∧
    IdleThreadCount (WaitForTaskTop (mkThreadPool 2) 0)
      ≤ ThreadCount (WaitForTaskTop (mkThreadPool 2) 0) ∧
    RunningThreadCount (WaitForTaskTop (mkThreadPool 2) 0)
      + IdleThreadCount (WaitForTaskTop (mkThreadPool 2) 0)
      = ThreadCount (WaitForTaskTop (mkThreadPool 2) 0) :=
  idle_counter_invariant 2 _
    (Relation.ReflTransGen.single (Step.worker (WStep.top 0 (by decide))))

theorem wstep_flags {st st' : PoolState} (h : WStep st st') :
    st'.finished = st.finished ∧ st'.noMoreTasks = st.noMoreTasks := by
  cases h with
  | top i hi =>
    unfold WaitForTaskTop
    cases st.tasks <;> split_ifs <;> exact ⟨rfl, rfl⟩
  | wake i hi hw =>
    unfold WaitForTaskWake
    cases st.tasks <;> split_ifs <;> exact ⟨rfl, rfl⟩
  | exec i t hi => exact ⟨rfl, rfl⟩

theorem wstep_rtc_flags {st st' : PoolState}
    (h : Relation.ReflTransGen WStep st st') :
    st'.finished = st.finished ∧ st'.noMoreTasks = st.noMoreTasks := by
  induction h with
  | refl => exact ⟨rfl, rfl⟩
  | tail hab hbc ih =>
    exact ⟨(wstep_flags hbc).1.trans ih.1, (wstep_flags hbc).2.trans ih.2⟩

theorem perm_pull_middle {α : Type _} (xs ys zs : List α) (a : α) :
    (xs ++ (ys ++ a :: zs)).Perm (a :: (xs ++ (ys ++ zs))) := by
  have h := @List.perm_middle _ a (xs ++ ys) zs
  simpa [List.append_assoc] using h

theorem wstep_inFlight {st st' : PoolState} (h : WStep st st') :
    ((inFlight st').Perm (inFlight st) ∧ st'.channels = st.channels) ∨
    (∃ t, (inFlight st).Perm (t :: inFlight st') ∧
      st'.channels = Function.update st.channels t.id (.written t.behavior)) := by
  cases h with
  | top i hi =>
    unfold WaitForTaskTop
    cases hq : st.tasks with
    | nil =>
      cases hf : st.finished
      · left
        obtain ⟨l1, l2, he, hs⟩ := set_decomp hi WorkerPhase.waiting
        rw [he] at hs
        refine ⟨?_, rfl⟩
        unfold inFlight
        simp [hq, he, hs, List.filterMap_append, execTask]
      · left
        obtain ⟨l1, l2, he, hs⟩ := set_decomp hi WorkerPhase.exited
        rw [he] at hs
        refine ⟨?_, rfl⟩
        unfold inFlight
        simp [hq, he, hs, List.filterMap_append, execTask]
    | cons t rest =>
      cases hnm : st.noMoreTasks
      · left
        obtain ⟨l1, l2, he, hs⟩ := set_decomp hi (WorkerPhase.executing t)
        rw [he] at hs
        refine ⟨?_, rfl⟩
        unfold inFlight
        simp [hq, he, hs, List.filterMap_append, execTask]
        exact perm_pull_middle rest (l1.filterMap execTask)
          (l2.filterMap execTask) t
      · left
        obtain ⟨l1, l2, he, hs⟩ := set_decomp hi WorkerPhase.exited
        rw [he] at hs
        refine ⟨?_, rfl⟩
        unfold inFlight
        simp [hq, he, hs, List.filterMap_append, execTask]
  | wake i hi hw =>
    unfold WaitForTaskWake
    cases hq : st.tasks with
    | nil =>
      left
      obtain ⟨l1, l2, he, hs⟩ := set_decomp hi WorkerPhase.exited
      rw [he] at hs
      refine ⟨?_, rfl⟩
      unfold inFlight
      simp [hq, he, hs, List.filterMap_append, execTask]
    | cons t rest =>
      cases hnm : st.noMoreTasks
      · left
        obtain ⟨l1, l2, he, hs⟩ := set_decomp hi (WorkerPhase.executing t)
        rw [he] at hs
        refine ⟨?_, rfl⟩
        unfold inFlight
        simp [hq, he, hs, List.filterMap_append, execTask]
        exact perm_pull_middle rest (l1.filterMap execTask)
          (l2.filterMap execTask) t
      · left
        obtain ⟨l1, l2, he, hs⟩ := set_decomp hi WorkerPhase.exited
        rw [he] at hs
        refine ⟨?_, rfl⟩
        unfold inFlight
        simp [hq, he, hs, List.filterMap_append, execTask]
  | exec i t hi =>
    right
    obtain ⟨l1, l2, he, hs⟩ := set_decomp hi WorkerPhase.atLoopTop
    rw [he] at hs
    refine ⟨t, ?_, rfl⟩
    unfold inFlight WaitForTaskExec
    simp [he, hs, List.filterMap_append, execTask]
    exact perm_pull_middle st.tasks (l1.filterMap execTask)
      (l2.filterMap execTask) t

theorem wf_preserved {st st' : PoolState} (h : WStep st st') (hwf : WF st) :
    WF st' := by
  obtain ⟨hnd, hpend⟩ := hwf
  rcases wstep_inFlight h with ⟨hp, hch⟩ | ⟨t, hp, hch⟩
  · refine ⟨((hp.map Task.id).nodup_iff).2 hnd, fun u hu => ?_⟩
    rw [hch]
    exact hpend u (hp.mem_iff.1 hu)
  · have hnd2 : (t.id :: (inFlight st').map Task.id).Nodup :=
      ((hp.map Task.id).nodup_iff).1 hnd
    refine ⟨(List.nodup_cons.1 hnd2).2, fun u hu => ?_⟩
    have hu' : u ∈ inFlight st := hp.mem_iff.2 (List.mem_cons_of_mem _ hu)
    have hne : u.id ≠ t.id := fun he =>
      (List.nodup_cons.1 hnd2).1 (he ▸ List.mem_map_of_mem Task.id hu)
    rw [hch, Function.update_noteq hne]
    exact hpend u hu'

theorem written_persists {st st' : PoolState} (h : WStep st st') (hwf : WF st)
    {id : Nat} {o : Outcome} (hw : st.channels id = .written o) :
    st'.channels id = .written o := by
  rcases wstep_inFlight h with ⟨hp, hch⟩ | ⟨t, hp, hch⟩
  · rw [hch]; exact hw
  · have hpend := hwf.2 t (hp.mem_iff.2 (List.mem_cons_self _ _))
    have hne : id ≠ t.id := by
      intro he
      rw [he] at hw
      rw [hw] at hpend
      cases hpend
    rw [hch, Function.update_noteq hne]
    exact hw

theorem tracked_preserved {st st' : PoolState} (h : WStep st st') (hwf : WF st)
    {t : Task} (ht : Tracked t st) : Tracked t st' := by
  rcases ht with hmem | hwr
  · rcases wstep_inFlight h with ⟨hp, hch⟩ | ⟨u, hp, hch⟩
    · exact Or.inl (hp.mem_iff.2 hmem)
    · rcases List.mem_cons.1 (hp.mem_iff.1 hmem) with heq | hmem'
      · subst heq
        right
        rw [hch, Function.update_same]
      · exact Or.inl hmem'
  · exact Or.inr (written_persists h hwf hwr)

theorem wstep_live_or_empty {st st' : PoolState} (h : WStep st st')
    (hn : st.noMoreTasks = false) :
    (∃ w ∈ st'.workers, w ≠ WorkerPhase.exited) ∨ st'.tasks = [] := by
  cases h with
  | top i hi =>
    unfold WaitForTaskTop
    cases hq : st.tasks with
    | nil =>
      cases hf : st.finished <;> · right; simp [hq]
    | cons t rest =>
      rw [hn]
      left
      obtain ⟨l1, l2, he, hs⟩ := set_decomp hi (WorkerPhase.executing t)
      refine ⟨.executing t, ?_, by simp⟩
      simp [hs]
  | wake i hi hw =>
    unfold WaitForTaskWake
    cases hq : st.tasks with
    | nil => right; simp [hq]
    | cons t rest =>
      rw [hn]
      left
      obtain ⟨l1, l2, he, hs⟩ := set_decomp hi (WorkerPhase.executing t)
      refine ⟨.executing t, ?_, by simp⟩
      simp [hs]
  | exec i t hi =>
    left
    obtain ⟨l1, l2, he, hs⟩ := set_decomp hi WorkerPhase.atLoopTop
    exact ⟨.atLoopTop, by simp [WaitForTaskExec, hs], by simp⟩

/-- Claim C1: on a pool that still has live worker threads, once
WaitUntilFinished has set the finished flag, woken the workers, and every
worker has returned (so the joins and the final clear go through), every
task that was submitted before the call - queued or already picked up - has
been completed: its result channel holds the task's outcome, reading its
future yields exactly that outcome without blocking; and every subsequent
AddTask call raises std::logic_error. -/
theorem WaitUntilFinished_drain_completeness (st0 st1 : PoolState)
    (hn : st0.noMoreTasks = false) (hlive : st0.workers ≠ [])
    (hnoex : WorkerPhase.exited ∉ st0.workers) (hwf : WF st0)
    (hsteps : Relation.ReflTransGen WStep (WaitUntilFinishedEnter st0) st1)
    (hdone : allWorkersExited st1 = true) :
    (∀ t ∈ inFlight st0,
      readFuture (WaitUntilFinishedJoin st1) t.id = resultOf t ∧
      readFuture (WaitUntilFinishedJoin st1) t.id ≠ .blocks) ∧
    ∀ t, (AddTask (WaitUntilFinishedJoin st1) t true).2 = some .logicError := by
  have hE : WaitUntilFinishedEnter st0 = { st0 with finished := true } := by
    unfold WaitUntilFinishedEnter
    rw [isEmpty_false_of_ne_nil hlive]
    simp
  have hall : ∀ w ∈ st1.workers, w = WorkerPhase.exited := by
    intro w hw
    have := List.all_eq_true.1 hdone w hw
    simpa using this
  have key : WF st1 ∧ st1.noMoreTasks = false ∧ st1.finished = true ∧
      ∀ t ∈ inFlight st0, Tracked t st1 := by
    rw [hE] at hsteps
    clear hdone hall
    induction hsteps with
    | refl => exact ⟨hwf, hn, rfl, fun t ht => Or.inl ht⟩
    | tail hab hbc ih =>
      obtain ⟨iwf, inm, ifin, itr⟩ := ih
      exact ⟨wf_preserved hbc iwf, (wstep_flags hbc).2.trans inm,
             (wstep_flags hbc).1.trans ifin,
             fun t ht => tracked_preserved hbc iwf (itr t ht)⟩
  have htasks : st1.tasks = [] := by
    rcases Relation.ReflTransGen.cases_tail hsteps with heq | ⟨b, hb, hstep⟩
    · exfalso
      obtain ⟨w, hw, hwne⟩ : ∃ w, w ∈ st0.workers ∧ w ≠ WorkerPhase.exited := by
        cases hww : st0.workers with
        | nil => exact absurd hww hlive
        | cons a l =>
          refine ⟨a, List.mem_cons_self a l, fun hea => ?_⟩
          apply hnoex
          rw [hww]
          exact hea ▸ List.mem_cons_self a l
      apply hwne
      apply hall
      rw [heq, hE]
      exact hw
    · have hbn : b.noMoreTasks = false := by
        rw [(wstep_rtc_flags hb).2, hE]
        exact hn
      rcases wstep_live_or_empty hstep hbn with ⟨w, hw, hwne⟩ | hempty
      · exact absurd (hall w hw) hwne
      · exact hempty
  have hFnil : st1.workers.filterMap execTask = [] := by
    rw [List.filterMap_eq_nil_iff]
    intro w hw
    rw [hall w hw]
    rfl
  have hinF : inFlight st1 = [] := by
    unfold inFlight
    rw [htasks, hFnil]
    rfl
  have hwritten : ∀ t ∈ inFlight st0,
      st1.channels t.id = .written t.behavior := by
    intro t ht
    rcases key.2.2.2 t ht with hmem | hwr
    · rw [hinF] at hmem
      exact absurd hmem (List.not_mem_nil t)
    · exact hwr
  have hjoin : ∀ id, (WaitUntilFinishedJoin st1).channels id
      = st1.channels id := by
    intro id
    unfold WaitUntilFinishedJoin ClearFutureTasks
    simp [htasks]
  refine ⟨fun t ht => ?_, fun t => ?_⟩
  · have hw := hwritten t ht
    have hread : readFuture (WaitUntilFinishedJoin st1) t.id = resultOf t := by
      unfold readFuture resultOf
      rw [hjoin, hw]
      cases t.behavior <;> rfl
    refine ⟨hread, ?_⟩
    rw [hread]
    unfold resultOf
    cases t.behavior <;> simp
  · have hfin : (WaitUntilFinishedJoin st1).finished = true := key.2.2.1
    unfold AddTask
    simp [hfin]

theorem WaitUntilFinished_drain_completeness_witness :
    readFuture
      (WaitUntilFinishedJoin
        (WaitForTaskTop
          (WaitForTaskExec
            (WaitForTaskTop
              (WaitUntilFinishedEnter
                (samplePool [⟨1, .val 5⟩] false false 0 [.atLoopTop])) 0)
            0 ⟨1, .val 5⟩) 0)) 1 = .value 5 ∧
    (AddTask
      (WaitUntilFinishedJoin
        (WaitForTaskTop
          (WaitForTaskExec
            (WaitForTaskTop
              (WaitUntilFinishedEnter
                (samplePool [⟨1, .val 5⟩] false false 0 [.atLoopTop])) 0)
            0 ⟨1, .val 5⟩) 0))
      ⟨2, .val 0⟩ true).2 = some .logicError := by
  have h := WaitUntilFinished_drain_completeness
    (samplePool [⟨1, .val 5⟩] false false 0 [.atLoopTop])
    (WaitForTaskTop
      (WaitForTaskExec
        (WaitForTaskTop
          (WaitUntilFinishedEnter
            (samplePool [⟨1, .val 5⟩] false false 0 [.atLoopTop])) 0)
        0 ⟨1, .val 5⟩) 0)
    rfl (by decide) (by decide) ⟨by decide, by decide⟩
    (Relation.ReflTransGen.tail
      (Relation.ReflTransGen.tail
        (Relation.ReflTransGen.single (WStep.top 0 (by decide)))
        (WStep.exec 0 ⟨1, .val 5⟩ (by decide)))
      (WStep.top 0 (by decide)))
    (by decide)
  exact ⟨(h.1 ⟨1, .val 5⟩ (by decide)).1, h.2 ⟨2, .val 0⟩⟩

end LCH
